import Mathlib

/-!
Verification development for the relayer core: the VAnchor leaves handler
(event-watchers/evm/src/vanchor/vanchor_leaves_handler.rs), the leaves-API
range query (crates/relayer-handlers/src/routes/mod.rs) and the supervisor
(src/service.rs), embedded shallowly.

Machine integers are modelled as natural numbers with explicit reductions:
a U256 truncated by as_u32 becomes x % 2 ^ 32, and a 32-byte commitment
interpreted by Bn254Fr.from_be_bytes_mod_order becomes x % bn254FrModulus.
External collaborators (the arkworks sparse Merkle tree, the sled store, the
chain RPC client) are modelled by the interface the handler consumes: the
tree by its map of inserted leaves together with the root computed as the
hash-fold of the inserted leaves with empty-leaf padding at depth 30, the
store by per-ResourceId association lists, and the fallible calls
(is_known_root, store writes, serde) by an explicit environment that chooses
the outcome of each call.
-/

namespace Relayer

/-- The order of the BN254 scalar field, the modulus of ark_bn254::Fr. -/
def bn254FrModulus : Nat :=
  21888242871839275222246405745257275088548364400416034343698204186575808495617

/-- Bn254Fr::from_be_bytes_mod_order: interpret bytes as a big-endian integer
and reduce it modulo the field order.  Total: every byte string is reduced. -/
def from_be_bytes_mod_order (bytes : Nat) : Nat :=
  bytes % bn254FrModulus

/-- U256::as_u32 keeps the low 32 bits. -/
def u32Of (x : Nat) : Nat := x % 2 ^ 32

/-- arkworks_utils::bytes_vec_to_f: convert each byte string into a field
element by big-endian reduction mod the field order. -/
def bytes_vec_to_f (l : List Nat) : List Nat :=
  l.map from_be_bytes_mod_order

/-! ### Association-list utilities

The sled store and the BTreeMap of the tree are key-value maps.  mapInsert is
BTreeMap::insert for Nat keys: it keeps the entries sorted by key and
replaces the value on an existing key.  alistGet?/alistSet are plain
key-value access for arbitrary decidable keys (the per-ResourceId trees of
the store). -/

/-- BTreeMap::insert on a key-sorted association list: entries stay in
strictly increasing key order, an existing key has its value replaced. -/
def mapInsert (k v : Nat) : List (Nat × Nat) → List (Nat × Nat)
  | [] => [(k, v)]
  | (k1, v1) :: rest =>
    if k < k1 then (k, v) :: (k1, v1) :: rest
    else if k = k1 then (k, v) :: rest
    else (k1, v1) :: mapInsert k v rest

/-- Lookup in an association list. -/
def alistGet? {κ α : Type} [DecidableEq κ] (k : κ) : List (κ × α) → Option α
  | [] => none
  | (k1, v1) :: rest => if k = k1 then some v1 else alistGet? k rest

/-- Set a key in an association list, replacing the first occurrence or
appending at the end. -/
def alistSet {κ α : Type} [DecidableEq κ] (k : κ) (v : α) :
    List (κ × α) → List (κ × α)
  | [] => [(k, v)]
  | (k1, v1) :: rest =>
    if k = k1 then (k, v) :: rest else (k1, v1) :: alistSet k v rest

/-- The keys of an association list are strictly increasing (the invariant of
a BTreeMap iterated in order, and of sled keys under one prefix). -/
def keysSorted (l : List (Nat × Nat)) : Prop :=
  List.Pairwise (fun a b => a < b) (l.map Prod.fst)

/-- Interpret every stored commitment of a leaf list as a field element, as
VAnchorLeavesHandler::new does leaf by leaf. -/
def reduceLeaves (l : List (Nat × Nat)) : List (Nat × Nat) :=
  l.map fun p => (p.1, from_be_bytes_mod_order p.2)

/-! ### Data model: ResourceId -/

/-- webb_proposals::TargetSystem restricted to what the handler builds: a
20-byte contract address (padded to 32 bytes). -/
inductive TargetSystem where
  | contractAddress (address : Nat)
deriving DecidableEq

/-- webb_proposals::TypedChainId. -/
inductive TypedChainId where
  | noChain
  | evm (id : Nat)
  | substrate (id : Nat)
  | cosmos (id : Nat)
  | solana (id : Nat)
deriving DecidableEq

/-- webb_proposals::ResourceId: the per-contract key of all store state. -/
structure ResourceId where
  targetSystem : TargetSystem
  typedChainId : TypedChainId
deriving DecidableEq

/-- The ResourceId derivation done both by VAnchorLeavesHandler::new and by
handle_event: contract address as target system, Evm(chain_id.as_u32()). -/
def derivedResourceId (contractAddress chainId : Nat) : ResourceId :=
  ⟨TargetSystem.contractAddress contractAddress, TypedChainId.evm (u32Of chainId)⟩

/-! ### The store

SledStore is external; it is modelled by the logical layout the spec gives:
leaves/(resource_id)/(index) -> commitment, last_block/(resource_id) -> u64,
plus the serialized event records written by store_event.  An event record
is the (commitment, leaf_index, encrypted_output) payload of the serialized
NewCommitment event data. -/

structure SledStore where
  leaves : List (ResourceId × List (Nat × Nat))
  lastDepositBlockNumber : List (ResourceId × Nat)
  storedEvents : List (Nat × Nat × Nat)
deriving DecidableEq

/-- LeafCacheStore::get_leaves: all (index, commitment) pairs stored for one
ResourceId, in index order. -/
def SledStore.get_leaves (s : SledStore) (rid : ResourceId) : List (Nat × Nat) :=
  (alistGet? rid s.leaves).getD []

/-- LeafCacheStore::insert_leaves_and_last_deposit_block_number: write the
given (index, commitment) pairs for the ResourceId and set its
last-deposit-block number, in one call. -/
def SledStore.insert_leaves_and_last_deposit_block_number (s : SledStore)
    (rid : ResourceId) (vals : List (Nat × Nat)) (blockNumber : Nat) : SledStore :=
  { s with
    leaves :=
      alistSet rid (vals.foldl (fun m p => mapInsert p.1 p.2 m) (s.get_leaves rid)) s.leaves,
    lastDepositBlockNumber := alistSet rid blockNumber s.lastDepositBlockNumber }

/-- EventHashStore::store_event: record the serialized event. -/
def SledStore.store_event (s : SledStore) (record : Nat × Nat × Nat) : SledStore :=
  { s with storedEvents := s.storedEvents ++ [record] }

/-! ### The sparse Merkle tree

arkworks SparseMerkleTree(Bn254Fr, Poseidon, 30) is an external collaborator;
the spec characterises its state as the map of inserted (index -> field
element) pairs and its root as the hash-fold of the inserted leaves in index
order with empty-leaf padding at unfilled positions (spec section 3,
MerkleTree invariant (i)).  The model keeps exactly that: the tree field is
the BTreeMap of inserted leaves, and root recomputes the depth-30 fold. -/

/-- Tree depth used by the handler: SparseMerkleTree(.., .., 30). -/
def merkleTreeDepth : Nat := 30

structure MerkleTree where
  tree : List (Nat × Nat)
  emptyLeaf : Nat
deriving DecidableEq

/-- The chain of empty-subtree hashes, most significant first: the head of
emptyHashChain h e k is the hash of an empty subtree of height k. -/
def emptyHashChain (h : Nat → Nat → Nat) (e : Nat) : Nat → List Nat
  | 0 => [e]
  | k + 1 =>
    match emptyHashChain h e k with
    | [] => []
    | x :: rest => h x x :: x :: rest

/-- Does the map hold a leaf with index in [lo, lo + size)? -/
def hasLeafIn (m : List (Nat × Nat)) (lo size : Nat) : Bool :=
  m.any fun p => decide (lo ≤ p.1) && decide (p.1 < lo + size)

/-- Root of the subtree of height (chain.length - 1) whose leaves start at
index lo, where chain lists the empty-subtree hashes from the subtree's own
height down to height 0. -/
def subRoot (h : Nat → Nat → Nat) (m : List (Nat × Nat)) : Nat → List Nat → Nat
  | _, [] => 0
  | lo, [e] => (alistGet? lo m).getD e
  | lo, e :: e2 :: rest =>
    if hasLeafIn m lo (2 ^ (e2 :: rest).length) then
      h (subRoot h m lo (e2 :: rest)) (subRoot h m (lo + 2 ^ rest.length) (e2 :: rest))
    else e

/-- SparseMerkleTree::root: the depth-30 hash-fold of the inserted leaves
with empty padding. -/
def MerkleTree.root (h : Nat → Nat → Nat) (t : MerkleTree) : Nat :=
  subRoot h t.tree 0 (emptyHashChain h t.emptyLeaf merkleTreeDepth)

/-- SparseMerkleTree::insert_batch: insert every (index, leaf) pair of the
batch into the tree map. -/
def MerkleTree.insert_batch (t : MerkleTree) (batch : List (Nat × Nat)) : MerkleTree :=
  { t with tree := batch.foldl (fun m p => mapInsert p.1 p.2 m) t.tree }

/-- SparseMerkleTree::new: an empty tree for the given empty leaf, with the
batch inserted. -/
def MerkleTree.new (batch : List (Nat × Nat)) (emptyLeaf : Nat) : MerkleTree :=
  MerkleTree.insert_batch { tree := [], emptyLeaf := emptyLeaf } batch

/-! ### Events, errors, handler -/

/-- webb_relayer_utils::Error restricted to the kinds handle_event and new
can produce. -/
inductive Error where
  | InvalidMerkleRootError (leafIndex : Nat)
  | RpcError
  | StoreError
  | SerdeError
  | ConvertLeafScalarError
deriving DecidableEq

/-- VAnchorContractEvents.  NewCommitmentFilter carries the commitment bytes
(as a big-endian value), the raw U256 leaf index and the encrypted output;
the remaining variants carry the fields the handler reads, and
unhandledEvent stands for the variants matched by the wildcard arm. -/
inductive VAnchorContractEvents where
  | NewCommitmentFilter (commitment : Nat) (leafIndex : Nat) (encryptedOutput : Nat)
  | EdgeAdditionFilter (chainId : Nat) (latestLeafIndex : Nat) (merkleRoot : Nat)
  | EdgeUpdateFilter (chainId : Nat) (latestLeafIndex : Nat) (merkleRoot : Nat)
  | NewNullifierFilter (nullifier : Nat)
  | InsertionFilter (commitment : Nat) (leafIndex : Nat) (timestamp : Nat)
  | unhandledEvent (tag : Nat)
deriving DecidableEq

/-- ethers LogMeta restricted to the field the handler reads. -/
structure LogMeta where
  blockNumber : Nat
deriving DecidableEq

/-- VAnchorContractWrapper restricted to what the handler reads: the
contract address (and, through the environment, the is_known_root call). -/
structure VAnchorContractWrapper where
  address : Nat
deriving DecidableEq

/-- The outcomes of the fallible external calls made during handle_event:
the contract's is_known_root answer per (root, block number), with none for
an RPC failure, and whether each store/serde call succeeds. -/
structure Env where
  is_known_root : Nat → Nat → Option Bool
  insertLeavesOk : Bool
  serdeOk : Bool
  storeEventOk : Bool

/-- VAnchorLeavesHandler: the tree behind its lock, the Poseidon hasher (an
abstract two-to-one hash) and the chain id. -/
structure VAnchorLeavesHandler where
  mt : MerkleTree
  hasher : Nat → Nat → Nat
  chainId : Nat

/-- VAnchorLeavesHandler::new: load the stored leaves of the derived
ResourceId, interpret each as a field element and rebuild the tree.  The
Poseidon instance built from setup_params is the hasher argument. -/
def VAnchorLeavesHandler.new (hasher : Nat → Nat → Nat) (chainId contractAddress : Nat)
    (storage : SledStore) (emptyLeaf : Nat) : Except Error VAnchorLeavesHandler :=
  let emptyLeafScalar := bytes_vec_to_f [emptyLeaf]
  match emptyLeafScalar.get? 0 with
  | none => Except.error Error.ConvertLeafScalarError
  | some emptyLeafVec =>
    let historyStoreKey := derivedResourceId contractAddress chainId
    let leaves := storage.get_leaves historyStoreKey
    let batch := leaves.foldl
      (fun m p => mapInsert p.1 (from_be_bytes_mod_order p.2) m) []
    let mt := MerkleTree.new batch emptyLeafVec
    Except.ok { mt := mt, hasher := hasher, chainId := chainId }

/-- EventHandler::can_handle_events for VAnchorLeavesHandler: Ok(true)
exactly on the NewCommitmentFilter variant. -/
def can_handle_events (events : VAnchorContractEvents) (_log : LogMeta)
    (_wrapper : VAnchorContractWrapper) : Except Error Bool :=
  let hasEvent :=
    match events with
    | VAnchorContractEvents.NewCommitmentFilter _ _ _ => true
    | _ => false
  Except.ok hasEvent

/-- The observable outcome of one handle_event call: the tree map after the
call (the handler mutates it in place under the lock), the store after the
call, the returned result (none = Ok(())) and the is_known_root queries made
(root, block number). -/
structure HandleOutcome where
  tree : List (Nat × Nat)
  store : SledStore
  res : Option Error
  queries : List (Nat × Nat)
deriving DecidableEq

/-- Step 2 of handle_event on a NewCommitment, shared by the even branch and
the odd known-root branch: insert the leaf and the last-deposit-block number
into the store, serialize the event data, record it. -/
def persistLeafAndEvent (env : Env) (tree1 : List (Nat × Nat)) (store : SledStore)
    (key : ResourceId) (value : Nat × Nat) (blockNumber : Nat)
    (record : Nat × Nat × Nat) (queries : List (Nat × Nat)) : HandleOutcome :=
  if env.insertLeavesOk then
    let store1 := store.insert_leaves_and_last_deposit_block_number key [value] blockNumber
    if env.serdeOk then
      if env.storeEventOk then
        { tree := tree1, store := store1.store_event record, res := none, queries := queries }
      else
        { tree := tree1, store := store1, res := some Error.StoreError, queries := queries }
    else
      { tree := tree1, store := store1, res := some Error.SerdeError, queries := queries }
  else
    { tree := tree1, store := store, res := some Error.StoreError, queries := queries }

/-- EventHandler::handle_event for VAnchorLeavesHandler.  On NewCommitment:
snapshot the tree, insert the commitment as a field element, accept even
indices outright, validate odd indices against the contract's known roots at
the event's block (restoring the snapshot and failing with
InvalidMerkleRootError on an unknown root), then persist leaf, block number
and serialized event.  Every other variant only logs. -/
def handle_event (env : Env) (self : VAnchorLeavesHandler) (store : SledStore)
    (wrapper : VAnchorContractWrapper) (event : VAnchorContractEvents)
    (log : LogMeta) : HandleOutcome :=
  let mtSnapshot := self.mt.tree
  match event with
  | VAnchorContractEvents.NewCommitmentFilter commitment leafIndexRaw encryptedOutput =>
    let leafIndex := u32Of leafIndexRaw
    let value := (leafIndex, commitment)
    let historyStoreKey := derivedResourceId wrapper.address self.chainId
    let leaf := from_be_bytes_mod_order commitment
    let batch := mapInsert leafIndex leaf []
    let mt1 := MerkleTree.insert_batch self.mt batch
    let record := (commitment, leafIndexRaw, encryptedOutput)
    if leafIndex % 2 = 0 then
      persistLeafAndEvent env mt1.tree store historyStoreKey value log.blockNumber record []
    else
      let root := mt1.root self.hasher
      match env.is_known_root root log.blockNumber with
      | none =>
        { tree := mt1.tree, store := store, res := some Error.RpcError,
          queries := [(root, log.blockNumber)] }
      | some false =>
        { tree := mtSnapshot, store := store,
          res := some (Error.InvalidMerkleRootError leafIndex),
          queries := [(root, log.blockNumber)] }
      | some true =>
        persistLeafAndEvent env mt1.tree store historyStoreKey value log.blockNumber record
          [(root, log.blockNumber)]
  | _ =>
    { tree := mtSnapshot, store := store, res := none, queries := [] }

/-- The root handle_event computes for validation of an odd index: the tree
root after inserting the commitment (as a field element) at its u32 leaf
index. -/
def rootAfterInsert (self : VAnchorLeavesHandler) (commitment leafIndexRaw : Nat) : Nat :=
  (self.mt.insert_batch
    (mapInsert (u32Of leafIndexRaw) (from_be_bytes_mod_order commitment) [])).root
    self.hasher

/-- The watcher's delivery loop restricted to one handler: deliver the events
in order, threading tree and store, stopping if any event is rejected.
some (handler, store) means every event was accepted. -/
def runEvents (env : Env) (wrapper : VAnchorContractWrapper) :
    VAnchorLeavesHandler → SledStore → List (VAnchorContractEvents × LogMeta) →
    Option (VAnchorLeavesHandler × SledStore)
  | self, store, [] => some (self, store)
  | self, store, (event, log) :: rest =>
    let out := handle_event env self store wrapper event log
    match out.res with
    | some _ => none
    | none =>
      runEvents env wrapper { self with mt := { self.mt with tree := out.tree } } out.store rest

/-! ### Leaves API range query (crates/relayer-handlers/src/routes/mod.rs) -/

/-- default_zero. -/
def default_zero : Option Nat := some 0

/-- default_u32_max. -/
def default_u32_max : Option Nat := some (2 ^ 32 - 1)

/-- OptionalRangeQuery: optional inclusive lower and exclusive upper bound,
u32-valued. -/
structure OptionalRangeQuery where
  start : Option Nat
  «end» : Option Nat
deriving DecidableEq

/-- Default for OptionalRangeQuery. -/
def OptionalRangeQuery.default : OptionalRangeQuery :=
  { start := default_zero, «end» := default_u32_max }

/-- From(OptionalRangeQuery) for Range(u32): apply the defaults via or_else
and expect.  The expect calls are modelled as the none outcome: some (s, e)
is the range s..e, none would be a panic. -/
def rangeOfOptionalRangeQuery (q : OptionalRangeQuery) : Option (Nat × Nat) :=
  match q.start.orElse (fun _ => default_zero) with
  | none => none
  | some s =>
    match q.«end».orElse (fun _ => default_u32_max) with
    | none => none
    | some e => some (s, e)

/-- core::ops::Range::contains for start..end: start <= x < end. -/
def rangeContains (r : Nat × Nat) (x : Nat) : Prop :=
  r.1 ≤ x ∧ x < r.2

instance (r : Nat × Nat) (x : Nat) : Decidable (rangeContains r x) := by
  unfold rangeContains; infer_instance

/-! ### Supervisor (src/service.rs)

ignite walks the configuration and spawns tasks; the model returns the list
of tasks spawned (tagged with the chain or node they were spawned for) and
whether ignite returned Ok.  The fallible context calls (evm_provider,
substrate_provider, substrate_wallet, the chain_identifier constant) are an
environment.  A failure aborts ignite but the already spawned tasks remain,
as with tokio::task::spawn. -/

structure EventsWatcherConfig where
  enabled : Bool
deriving DecidableEq

structure CommonContractConfig where
  address : Nat
  eventsWatcher : EventsWatcherConfig
deriving DecidableEq

structure TornadoContractConfig where
  common : CommonContractConfig
deriving DecidableEq

structure AnchorContractOverDKGConfig where
  common : CommonContractConfig
  dkgNode : Nat
deriving DecidableEq

structure GovernanceBravoDelegateConfig where
  common : CommonContractConfig
deriving DecidableEq

/-- config::Contract. -/
inductive Contract where
  | Tornado (config : TornadoContractConfig)
  | AnchorOverDKG (config : AnchorContractOverDKGConfig)
  | GovernanceBravoDelegate (config : GovernanceBravoDelegateConfig)
deriving DecidableEq

structure EvmChainConfig where
  enabled : Bool
  contracts : List Contract
deriving DecidableEq

structure DKGProposalHandlerPalletConfig where
  eventsWatcher : EventsWatcherConfig
deriving DecidableEq

/-- config::Pallet. -/
inductive Pallet where
  | DKGProposalHandler (config : DKGProposalHandlerPalletConfig)
  | DKGProposals
deriving DecidableEq

inductive SubstrateRuntime where
  | Dkg
  | WebbProtocol
deriving DecidableEq

structure SubstrateNodeConfig where
  enabled : Bool
  runtime : SubstrateRuntime
  pallets : List Pallet
deriving DecidableEq

/-- The configuration sections ignite walks; chain and node names are
abstract identifiers. -/
structure RelayerConfig where
  evm : List (Nat × EvmChainConfig)
  substrate : List (Nat × SubstrateNodeConfig)
deriving DecidableEq

/-- A background task spawned by ignite, tagged with its provenance. -/
inductive Task where
  | tornadoWatcher (chainName address : Nat)
  | anchorOverDkgWatcher (chainName address : Nat)
  | governanceBravoWatcher (chainName address : Nat)
  | txQueue (chainName : Nat)
  | dkgProposalHandlerWatcher (nodeName : Nat)
deriving DecidableEq

/-- Which EVM chain a task belongs to (substrate tasks belong to none). -/
def evmTaskChain : Task → Option Nat
  | Task.tornadoWatcher n _ => some n
  | Task.anchorOverDkgWatcher n _ => some n
  | Task.governanceBravoWatcher n _ => some n
  | Task.txQueue n => some n
  | Task.dkgProposalHandlerWatcher _ => none

/-- Outcomes of the fallible context calls made during ignite. -/
structure ServiceEnv where
  evmProviderOk : Nat → Bool
  substrateProviderOk : Nat → Bool
  substrateWalletOk : Nat → Bool
  chainIdentifierOk : Nat → Bool

/-- start_tornado_events_watcher: spawn the watcher unless the contract's
events watcher is disabled.  Always Ok. -/
def start_tornado_events_watcher (chainName : Nat) (config : TornadoContractConfig) :
    List Task :=
  if config.common.eventsWatcher.enabled then
    [Task.tornadoWatcher chainName config.common.address]
  else []

/-- start_anchor_over_dkg_events_watcher: return Ok without spawning when
disabled; otherwise acquire the dkg client and wallet (both fallible) and
spawn.  none models the error return. -/
def start_anchor_over_dkg_events_watcher (env : ServiceEnv) (chainName : Nat)
    (config : AnchorContractOverDKGConfig) : Option (List Task) :=
  if config.common.eventsWatcher.enabled then
    if env.substrateProviderOk config.dkgNode then
      if env.substrateWalletOk config.dkgNode then
        some [Task.anchorOverDkgWatcher chainName config.common.address]
      else none
    else none
  else some []

/-- The contracts match inside ignite: Tornado and AnchorOverDKG start their
watcher, GovernanceBravoDelegate does nothing. -/
def startContract (env : ServiceEnv) (chainName : Nat) : Contract → Option (List Task)
  | Contract.Tornado config => some (start_tornado_events_watcher chainName config)
  | Contract.AnchorOverDKG config =>
    start_anchor_over_dkg_events_watcher env chainName config
  | Contract.GovernanceBravoDelegate _ => some []

/-- The contracts loop of ignite: process each contract in order; the first
error aborts (tasks already spawned remain). -/
def startContracts (env : ServiceEnv) (chainName : Nat) :
    List Contract → List Task × Bool
  | [] => ([], true)
  | c :: rest =>
    match startContract env chainName c with
    | none => ([], false)
    | some ts =>
      let out := startContracts env chainName rest
      (ts ++ out.1, out.2)

/-- One iteration of ignite's evm loop: skip a disabled chain, acquire the
provider (fallible), start the contract watchers, then the chain's
transaction queue. -/
def startEvmChain (env : ServiceEnv) (chainName : Nat) (config : EvmChainConfig) :
    List Task × Bool :=
  if config.enabled then
    if env.evmProviderOk chainName then
      let out := startContracts env chainName config.contracts
      if out.2 then (out.1 ++ [Task.txQueue chainName], true) else (out.1, false)
    else ([], false)
  else ([], true)

/-- ignite's evm loop over the configured chains. -/
def igniteEvm (env : ServiceEnv) : List (Nat × EvmChainConfig) → List Task × Bool
  | [] => ([], true)
  | (name, config) :: rest =>
    let out := startEvmChain env name config
    if out.2 then
      let out2 := igniteEvm env rest
      (out.1 ++ out2.1, out2.2)
    else (out.1, false)

/-- The pallets match inside ignite: DKGProposalHandler starts its watcher
when enabled, DKGProposals does nothing. -/
def startPallet (nodeName : Nat) : Pallet → List Task
  | Pallet.DKGProposalHandler config =>
    if config.eventsWatcher.enabled then [Task.dkgProposalHandlerWatcher nodeName] else []
  | Pallet.DKGProposals => []

/-- One iteration of ignite's substrate loop. -/
def startSubstrateNode (env : ServiceEnv) (nodeName : Nat)
    (config : SubstrateNodeConfig) : List Task × Bool :=
  if config.enabled then
    match config.runtime with
    | SubstrateRuntime.Dkg =>
      if env.substrateProviderOk nodeName then
        if env.chainIdentifierOk nodeName then
          (config.pallets.foldr (fun p acc => startPallet nodeName p ++ acc) [], true)
        else ([], false)
      else ([], false)
    | SubstrateRuntime.WebbProtocol => ([], true)
  else ([], true)

/-- ignite's substrate loop over the configured nodes. -/
def igniteSubstrate (env : ServiceEnv) : List (Nat × SubstrateNodeConfig) → List Task × Bool
  | [] => ([], true)
  | (name, config) :: rest =>
    let out := startSubstrateNode env name config
    if out.2 then
      let out2 := igniteSubstrate env rest
      (out.1 ++ out2.1, out2.2)
    else (out.1, false)

/-- service::ignite: the evm loop, then the substrate loop. -/
def ignite (env : ServiceEnv) (config : RelayerConfig) : List Task × Bool :=
  let out := igniteEvm env config.evm
  if out.2 then
    let out2 := igniteSubstrate env config.substrate
    (out.1 ++ out2.1, out2.2)
  else (out.1, false)

/-! ### Concrete sample values used by witnesses and counterexamples -/

/-- A concrete stand-in for the Poseidon two-to-one hash. -/
def sampleHasher : Nat → Nat → Nat :=
  fun a b => (2 * a + 3 * b + 1) % bn254FrModulus

/-- An empty store. -/
def emptyStore : SledStore := { leaves := [], lastDepositBlockNumber := [], storedEvents := [] }

/-- A handler over an empty tree for chain 1. -/
def sampleHandler : VAnchorLeavesHandler :=
  { mt := { tree := [], emptyLeaf := 0 }, hasher := sampleHasher, chainId := 1 }

/-- The contract wrapper at address 2. -/
def sampleWrapper : VAnchorContractWrapper := { address := 2 }

/-- A log at block 3. -/
def sampleLog : LogMeta := { blockNumber := 3 }

/-- An environment where every external call succeeds and every root is
known. -/
def envAllOk : Env :=
  { is_known_root := fun _ _ => some true,
    insertLeavesOk := true, serdeOk := true, storeEventOk := true }

/-- Every call succeeds but the contract recognises no root. -/
def envRootUnknown : Env := { envAllOk with is_known_root := fun _ _ => some false }

/-- The is_known_root RPC call fails. -/
def envRpcFails : Env := { envAllOk with is_known_root := fun _ _ => none }

/-- The store after accepting NewCommitment(0, 5) at block 3 and
NewCommitment(1, 9) at block 4 on chain 1, contract 2. -/
def sampleStoreAfterRun : SledStore :=
  { leaves := [(derivedResourceId 2 1, [(0, 5), (1, 9)])],
    lastDepositBlockNumber := [(derivedResourceId 2 1, 4)],
    storedEvents := [(5, 0, 0), (9, 1, 0)] }

/-- The handler after accepting those two commitments. -/
def sampleHandlerAfterRun : VAnchorLeavesHandler :=
  { mt := { tree := [(0, 5), (1, 9)], emptyLeaf := 0 },
    hasher := sampleHasher, chainId := 1 }

/-- A service environment where every provider and wallet call succeeds. -/
def sampleServiceEnv : ServiceEnv :=
  { evmProviderOk := fun _ => true, substrateProviderOk := fun _ => true,
    substrateWalletOk := fun _ => true, chainIdentifierOk := fun _ => true }

/-- A configuration with one enabled EVM chain holding an enabled Tornado
contract, a watcher-disabled Tornado contract, a GovernanceBravoDelegate
contract and an enabled AnchorOverDKG contract, plus one disabled chain. -/
def sampleRelayerConfig : RelayerConfig :=
  { evm := [
      (1, { enabled := true, contracts := [
        Contract.Tornado
          { common := { address := 10, eventsWatcher := { enabled := true } } },
        Contract.Tornado
          { common := { address := 11, eventsWatcher := { enabled := false } } },
        Contract.GovernanceBravoDelegate
          { common := { address := 12, eventsWatcher := { enabled := true } } },
        Contract.AnchorOverDKG
          { common := { address := 13, eventsWatcher := { enabled := true } },
            dkgNode := 5 } ] }),
      (2, { enabled := false, contracts := [
        Contract.Tornado
          { common := { address := 20, eventsWatcher := { enabled := true } } } ] }) ],
    substrate := [] }

/-! ## Theorems -/

/-- C6: for every OptionalRangeQuery, the derived half-open range uses
start = 0 when start is absent and end = u32::MAX when end is absent, and
the resulting range start..end contains exactly the values x with
start <= x < end, hence is empty whenever start >= end. -/
theorem c6_optional_range_query_defaults (q : OptionalRangeQuery) :
    rangeOfOptionalRangeQuery q = some (q.start.getD 0, q.«end».getD (2 ^ 32 - 1)) ∧
    (∀ r, rangeOfOptionalRangeQuery q = some r →
      (∀ x, rangeContains r x ↔ r.1 ≤ x ∧ x < r.2) ∧
      (r.1 ≥ r.2 → ∀ x, ¬ rangeContains r x)) := by
  refine ⟨?_, ?_⟩
  · cases hs : q.start <;> cases he : q.«end» <;>
      simp [rangeOfOptionalRangeQuery, default_zero, default_u32_max, hs, he,
        Option.orElse]
  · intro r _
    refine ⟨fun x => Iff.rfl, ?_⟩
    intro hle x hcon
    rcases hcon with ⟨h1, h2⟩
    omega

/-- C6 witness: the theorem applied to the query with both bounds absent. -/
theorem c6_optional_range_query_defaults_witness :
    rangeOfOptionalRangeQuery ⟨none, none⟩ =
        some ((none : Option Nat).getD 0, (none : Option Nat).getD (2 ^ 32 - 1)) ∧
    (∀ r, rangeOfOptionalRangeQuery ⟨none, none⟩ = some r →
      (∀ x, rangeContains r x ↔ r.1 ≤ x ∧ x < r.2) ∧
      (r.1 ≥ r.2 → ∀ x, ¬ rangeContains r x)) :=
  c6_optional_range_query_defaults ⟨none, none⟩

/-- C10: converting an OptionalRangeQuery to a range is total and never
panics: or_else with the constant default functions always produces Some, so
the expect calls are unreachable. -/
theorem c10_range_conversion_never_panics (q : OptionalRangeQuery) :
    q.start.orElse (fun _ => default_zero) = some (q.start.getD 0) ∧
    q.«end».orElse (fun _ => default_u32_max) = some (q.«end».getD (2 ^ 32 - 1)) ∧
    (rangeOfOptionalRangeQuery q).isSome = true := by
  cases hs : q.start <;> cases he : q.«end» <;>
    simp [rangeOfOptionalRangeQuery, default_zero, default_u32_max, hs, he,
      Option.orElse]

/-- C10 witness: the theorem applied to a query with only the start bound. -/
theorem c10_range_conversion_never_panics_witness :
    (some 5 : Option Nat).orElse (fun _ => default_zero) = some ((some 5 : Option Nat).getD 0) ∧
    (none : Option Nat).orElse (fun _ => default_u32_max) =
        some ((none : Option Nat).getD (2 ^ 32 - 1)) ∧
    (rangeOfOptionalRangeQuery ⟨some 5, none⟩).isSome = true :=
  c10_range_conversion_never_panics ⟨some 5, none⟩

/-- C8: can_handle_events returns true if and only if the event is the
NewCommitment variant, returns false for every other variant, and never
returns an error (the result is always Ok of some boolean). -/
theorem c8_can_handle_events_iff_new_commitment (events : VAnchorContractEvents)
    (log : LogMeta) (wrapper : VAnchorContractWrapper) :
    (can_handle_events events log wrapper = Except.ok true ↔
      ∃ c li eo, events = VAnchorContractEvents.NewCommitmentFilter c li eo) ∧
    ∃ b, can_handle_events events log wrapper = Except.ok b := by
  cases events <;> simp [can_handle_events]

/-- C8 witness: the theorem applied to a concrete NewCommitment event. -/
theorem c8_can_handle_events_iff_new_commitment_witness :
    (can_handle_events (VAnchorContractEvents.NewCommitmentFilter 1 2 3) sampleLog
        sampleWrapper = Except.ok true ↔
      ∃ c li eo, VAnchorContractEvents.NewCommitmentFilter 1 2 3 =
        VAnchorContractEvents.NewCommitmentFilter c li eo) ∧
    ∃ b, can_handle_events (VAnchorContractEvents.NewCommitmentFilter 1 2 3) sampleLog
        sampleWrapper = Except.ok b :=
  c8_can_handle_events_iff_new_commitment _ sampleLog sampleWrapper

/-- C7: for every event variant other than NewCommitment, handle_event
returns Ok and leaves the tree and the store unchanged, making no
is_known_root query. -/
theorem c7_other_variants_no_state_change (env : Env) (self : VAnchorLeavesHandler)
    (store : SledStore) (wrapper : VAnchorContractWrapper)
    (event : VAnchorContractEvents) (log : LogMeta)
    (h : ∀ c li eo, event ≠ VAnchorContractEvents.NewCommitmentFilter c li eo) :
    handle_event env self store wrapper event log =
      { tree := self.mt.tree, store := store, res := none, queries := [] } := by
  cases event
  case NewCommitmentFilter c li eo => exact absurd rfl (h c li eo)
  all_goals rfl

/-- The persistence step never changes the tree it is given. -/
theorem persistLeafAndEvent_tree (env : Env) (tree1 : List (Nat × Nat))
    (store : SledStore) (key : ResourceId) (value : Nat × Nat) (blockNumber : Nat)
    (record : Nat × Nat × Nat) (queries : List (Nat × Nat)) :
    (persistLeafAndEvent env tree1 store key value blockNumber record queries).tree
      = tree1 := by
  unfold persistLeafAndEvent
  split_ifs <;> rfl

/-- The persistence step never changes the query log it is given. -/
theorem persistLeafAndEvent_queries (env : Env) (tree1 : List (Nat × Nat))
    (store : SledStore) (key : ResourceId) (value : Nat × Nat) (blockNumber : Nat)
    (record : Nat × Nat × Nat) (queries : List (Nat × Nat)) :
    (persistLeafAndEvent env tree1 store key value blockNumber record queries).queries
      = queries := by
  unfold persistLeafAndEvent
  split_ifs <;> rfl

/-- The persistence step never reports an invalid merkle root. -/
theorem persistLeafAndEvent_res_ne_invalid (env : Env) (tree1 : List (Nat × Nat))
    (store : SledStore) (key : ResourceId) (value : Nat × Nat) (blockNumber : Nat)
    (record : Nat × Nat × Nat) (queries : List (Nat × Nat)) (i : Nat) :
    (persistLeafAndEvent env tree1 store key value blockNumber record queries).res
      ≠ some (Error.InvalidMerkleRootError i) := by
  unfold persistLeafAndEvent
  split_ifs <;> simp

/-- When every store call succeeds, the persistence step returns Ok. -/
theorem persistLeafAndEvent_res_ok (env : Env) (tree1 : List (Nat × Nat))
    (store : SledStore) (key : ResourceId) (value : Nat × Nat) (blockNumber : Nat)
    (record : Nat × Nat × Nat) (queries : List (Nat × Nat))
    (hins : env.insertLeavesOk = true) (hser : env.serdeOk = true)
    (hst : env.storeEventOk = true) :
    (persistLeafAndEvent env tree1 store key value blockNumber record queries).res
      = none := by
  unfold persistLeafAndEvent
  rw [if_pos hins, if_pos hser, if_pos hst]

/-- C1: on NewCommitment(leaf_index, commitment), an even u32 leaf index is
accepted without any is_known_root query; an odd u32 leaf index triggers
exactly one is_known_root query with the post-insertion root at the event's
block number, and a negative answer restores the pre-insertion tree and
returns InvalidMerkleRootError(leaf_index), while a positive answer accepts.
The store calls are assumed to succeed (their failures are claim C2's
concern). -/
theorem c1_even_accepted_odd_validated (env : Env) (self : VAnchorLeavesHandler)
    (store : SledStore) (wrapper : VAnchorContractWrapper) (log : LogMeta)
    (c li eo : Nat)
    (hins : env.insertLeavesOk = true) (hser : env.serdeOk = true)
    (hst : env.storeEventOk = true) :
    (u32Of li % 2 = 0 →
      (handle_event env self store wrapper
        (VAnchorContractEvents.NewCommitmentFilter c li eo) log).queries = [] ∧
      (handle_event env self store wrapper
        (VAnchorContractEvents.NewCommitmentFilter c li eo) log).res = none) ∧
    (u32Of li % 2 = 1 →
      (handle_event env self store wrapper
        (VAnchorContractEvents.NewCommitmentFilter c li eo) log).queries =
        [(rootAfterInsert self c li, log.blockNumber)] ∧
      (env.is_known_root (rootAfterInsert self c li) log.blockNumber = some false →
        (handle_event env self store wrapper
          (VAnchorContractEvents.NewCommitmentFilter c li eo) log).res =
          some (Error.InvalidMerkleRootError (u32Of li)) ∧
        (handle_event env self store wrapper
          (VAnchorContractEvents.NewCommitmentFilter c li eo) log).tree =
          self.mt.tree) ∧
      (env.is_known_root (rootAfterInsert self c li) log.blockNumber = some true →
        (handle_event env self store wrapper
          (VAnchorContractEvents.NewCommitmentFilter c li eo) log).res = none)) := by
  constructor
  · intro he
    simp only [handle_event]
    rw [if_pos he]
    exact ⟨persistLeafAndEvent_queries _ _ _ _ _ _ _ _,
      persistLeafAndEvent_res_ok _ _ _ _ _ _ _ _ hins hser hst⟩
  · intro ho
    have hne : ¬ u32Of li % 2 = 0 := by omega
    simp only [handle_event, rootAfterInsert]
    rw [if_neg hne]
    rcases hk : env.is_known_root
        (MerkleTree.root self.hasher
          (self.mt.insert_batch (mapInsert (u32Of li) (from_be_bytes_mod_order c) [])))
        log.blockNumber with _ | b
    · refine ⟨rfl, ?_, ?_⟩
      · intro hx
        cases hx
      · intro hx
        cases hx
    · cases b
      · refine ⟨rfl, ?_, ?_⟩
        · intro _
          exact ⟨rfl, rfl⟩
        · intro hx
          cases hx
      · refine ⟨persistLeafAndEvent_queries _ _ _ _ _ _ _ _, ?_, ?_⟩
        · intro hx
          cases hx
        · intro _
          exact persistLeafAndEvent_res_ok _ _ _ _ _ _ _ _ hins hser hst

/-- C1 witness: the theorem applied to a concrete even-index event under the
all-Ok environment. -/
theorem c1_even_accepted_odd_validated_witness :
    (u32Of 2 % 2 = 0 →
      (handle_event envAllOk sampleHandler emptyStore sampleWrapper
        (VAnchorContractEvents.NewCommitmentFilter 5 2 0) sampleLog).queries = [] ∧
      (handle_event envAllOk sampleHandler emptyStore sampleWrapper
        (VAnchorContractEvents.NewCommitmentFilter 5 2 0) sampleLog).res = none) ∧
    (u32Of 2 % 2 = 1 →
      (handle_event envAllOk sampleHandler emptyStore sampleWrapper
        (VAnchorContractEvents.NewCommitmentFilter 5 2 0) sampleLog).queries =
        [(rootAfterInsert sampleHandler 5 2, sampleLog.blockNumber)] ∧
      (envAllOk.is_known_root (rootAfterInsert sampleHandler 5 2) sampleLog.blockNumber =
          some false →
        (handle_event envAllOk sampleHandler emptyStore sampleWrapper
          (VAnchorContractEvents.NewCommitmentFilter 5 2 0) sampleLog).res =
          some (Error.InvalidMerkleRootError (u32Of 2)) ∧
        (handle_event envAllOk sampleHandler emptyStore sampleWrapper
          (VAnchorContractEvents.NewCommitmentFilter 5 2 0) sampleLog).tree =
          sampleHandler.mt.tree) ∧
      (envAllOk.is_known_root (rootAfterInsert sampleHandler 5 2) sampleLog.blockNumber =
          some true →
        (handle_event envAllOk sampleHandler emptyStore sampleWrapper
          (VAnchorContractEvents.NewCommitmentFilter 5 2 0) sampleLog).res = none)) :=
  c1_even_accepted_odd_validated envAllOk sampleHandler emptyStore sampleWrapper
    sampleLog 5 2 0 rfl rfl rfl

/-- C2 counterexample: when the is_known_root RPC call fails on an
odd-indexed commitment, handle_event returns an error but the tree is not
restored: it keeps the freshly inserted leaf, so it differs from its state
before the call. -/
theorem c2_counterexample_rpc_failure_keeps_leaf :
    (handle_event envRpcFails sampleHandler emptyStore sampleWrapper
        (VAnchorContractEvents.NewCommitmentFilter 7 1 0) sampleLog).res =
      some Error.RpcError ∧
    (handle_event envRpcFails sampleHandler emptyStore sampleWrapper
        (VAnchorContractEvents.NewCommitmentFilter 7 1 0) sampleLog).tree ≠
      sampleHandler.mt.tree := by
  decide

/-- C2 amended: when handle_event returns an error, the tree is either its
pre-call state or the pre-call state with the event's leaf fully inserted
(never partially updated); it is restored to the pre-call state whenever the
error is InvalidMerkleRootError; and conversely, on every other error
outcome of a NewCommitment event (RPC failure of is_known_root, store
failure, serialization failure) the snapshot is not restored: the tree is
exactly the pre-call state with the leaf inserted. -/
theorem c2_amended_rollback_only_on_invalid_root (env : Env)
    (self : VAnchorLeavesHandler) (store : SledStore)
    (wrapper : VAnchorContractWrapper) (event : VAnchorContractEvents)
    (log : LogMeta) (e : Error)
    (hres : (handle_event env self store wrapper event log).res = some e) :
    ((handle_event env self store wrapper event log).tree = self.mt.tree ∨
      ∃ c li eo, event = VAnchorContractEvents.NewCommitmentFilter c li eo ∧
        (handle_event env self store wrapper event log).tree =
          (self.mt.insert_batch
            (mapInsert (u32Of li) (from_be_bytes_mod_order c) [])).tree) ∧
    (∀ i, e = Error.InvalidMerkleRootError i →
      (handle_event env self store wrapper event log).tree = self.mt.tree) ∧
    (∀ c li eo, event = VAnchorContractEvents.NewCommitmentFilter c li eo →
      (∀ i, e ≠ Error.InvalidMerkleRootError i) →
      (handle_event env self store wrapper event log).tree =
        (self.mt.insert_batch
          (mapInsert (u32Of li) (from_be_bytes_mod_order c) [])).tree) := by
  cases event
  case NewCommitmentFilter c li eo =>
    by_cases hp : u32Of li % 2 = 0
    · simp only [handle_event] at hres ⊢
      rw [if_pos hp] at hres ⊢
      refine ⟨Or.inr ⟨c, li, eo, rfl, persistLeafAndEvent_tree _ _ _ _ _ _ _ _⟩, ?_, ?_⟩
      · intro i hi
        rw [hi] at hres
        exact absurd hres (persistLeafAndEvent_res_ne_invalid _ _ _ _ _ _ _ _ i)
      · intro c2 li2 eo2 heq _
        injection heq with e1 e2 e3
        subst e1
        subst e2
        subst e3
        exact persistLeafAndEvent_tree _ _ _ _ _ _ _ _
    · simp only [handle_event] at hres ⊢
      rw [if_neg hp] at hres ⊢
      rcases hk : env.is_known_root
          (MerkleTree.root self.hasher
            (self.mt.insert_batch (mapInsert (u32Of li) (from_be_bytes_mod_order c) [])))
          log.blockNumber with _ | b
      · rw [hk] at hres
        refine ⟨Or.inr ⟨c, li, eo, rfl, rfl⟩, ?_, ?_⟩
        · intro i hi
          have hres2 : (some Error.RpcError : Option Error) = some e := hres
          rw [hi] at hres2
          cases hres2
        · intro c2 li2 eo2 heq _
          injection heq with e1 e2 e3
          subst e1
          subst e2
          subst e3
          rfl
      · cases b
        · rw [hk] at hres
          refine ⟨Or.inl rfl, fun i _ => rfl, ?_⟩
          intro c2 li2 eo2 heq hne
          injection heq with e1 e2 e3
          subst e2
          have hres2 : (some (Error.InvalidMerkleRootError (u32Of li)) : Option Error) =
              some e := hres
          have he : e = Error.InvalidMerkleRootError (u32Of li) := by
            injection hres2 with h
            exact h.symm
          exact absurd he (hne (u32Of li))
        · rw [hk] at hres
          refine ⟨Or.inr ⟨c, li, eo, rfl, persistLeafAndEvent_tree _ _ _ _ _ _ _ _⟩,
            ?_, ?_⟩
          · intro i hi
            rw [hi] at hres
            exact absurd hres (persistLeafAndEvent_res_ne_invalid _ _ _ _ _ _ _ _ i)
          · intro c2 li2 eo2 heq _
            injection heq with e1 e2 e3
            subst e1
            subst e2
            subst e3
            exact persistLeafAndEvent_tree _ _ _ _ _ _ _ _
  all_goals exact Option.noConfusion hres

/-- C2 amended witness: the theorem applied to the RPC-failure instance,
where the error is RpcError and the tree keeps the inserted leaf. -/
theorem c2_amended_rollback_only_on_invalid_root_witness :
    ((handle_event envRpcFails sampleHandler emptyStore sampleWrapper
        (VAnchorContractEvents.NewCommitmentFilter 7 1 0) sampleLog).tree =
        sampleHandler.mt.tree ∨
      ∃ c li eo, VAnchorContractEvents.NewCommitmentFilter 7 1 0 =
          VAnchorContractEvents.NewCommitmentFilter c li eo ∧
        (handle_event envRpcFails sampleHandler emptyStore sampleWrapper
          (VAnchorContractEvents.NewCommitmentFilter 7 1 0) sampleLog).tree =
          (sampleHandler.mt.insert_batch
            (mapInsert (u32Of li) (from_be_bytes_mod_order c) [])).tree) ∧
    (∀ i, Error.RpcError = Error.InvalidMerkleRootError i →
      (handle_event envRpcFails sampleHandler emptyStore sampleWrapper
        (VAnchorContractEvents.NewCommitmentFilter 7 1 0) sampleLog).tree =
        sampleHandler.mt.tree) ∧
    (∀ c li eo, VAnchorContractEvents.NewCommitmentFilter 7 1 0 =
        VAnchorContractEvents.NewCommitmentFilter c li eo →
      (∀ i, Error.RpcError ≠ Error.InvalidMerkleRootError i) →
      (handle_event envRpcFails sampleHandler emptyStore sampleWrapper
        (VAnchorContractEvents.NewCommitmentFilter 7 1 0) sampleLog).tree =
        (sampleHandler.mt.insert_batch
          (mapInsert (u32Of li) (from_be_bytes_mod_order c) [])).tree) :=
  c2_amended_rollback_only_on_invalid_root envRpcFails sampleHandler emptyStore
    sampleWrapper (VAnchorContractEvents.NewCommitmentFilter 7 1 0) sampleLog
    Error.RpcError rfl

/-- C3: an odd-indexed commitment whose post-insertion root the contract does
not recognise is rejected with InvalidMerkleRootError(leaf_index), the tree
is rolled back to its pre-event state, nothing is written to the store (no
leaf, no last-deposit-block number, no event record), and redelivering the
same event to the resulting state fails again with the same error. -/
theorem c3_invalid_root_rejects_and_rolls_back (env : Env)
    (self : VAnchorLeavesHandler) (store : SledStore)
    (wrapper : VAnchorContractWrapper) (log : LogMeta) (c li eo : Nat)
    (hodd : u32Of li % 2 = 1)
    (hroot : env.is_known_root (rootAfterInsert self c li) log.blockNumber = some false) :
    (handle_event env self store wrapper
      (VAnchorContractEvents.NewCommitmentFilter c li eo) log).res =
      some (Error.InvalidMerkleRootError (u32Of li)) ∧
    (handle_event env self store wrapper
      (VAnchorContractEvents.NewCommitmentFilter c li eo) log).tree = self.mt.tree ∧
    (handle_event env self store wrapper
      (VAnchorContractEvents.NewCommitmentFilter c li eo) log).store = store ∧
    (handle_event env
      { self with mt := { self.mt with tree :=
          (handle_event env self store wrapper
            (VAnchorContractEvents.NewCommitmentFilter c li eo) log).tree } }
      (handle_event env self store wrapper
        (VAnchorContractEvents.NewCommitmentFilter c li eo) log).store wrapper
      (VAnchorContractEvents.NewCommitmentFilter c li eo) log).res =
      some (Error.InvalidMerkleRootError (u32Of li)) := by
  have hne : ¬ u32Of li % 2 = 0 := by omega
  rw [rootAfterInsert] at hroot
  have h1 : (handle_event env self store wrapper
      (VAnchorContractEvents.NewCommitmentFilter c li eo) log).res =
      some (Error.InvalidMerkleRootError (u32Of li)) := by
    simp only [handle_event]
    rw [if_neg hne, hroot]
  have h2 : (handle_event env self store wrapper
      (VAnchorContractEvents.NewCommitmentFilter c li eo) log).tree = self.mt.tree := by
    simp only [handle_event]
    rw [if_neg hne, hroot]
  have h3 : (handle_event env self store wrapper
      (VAnchorContractEvents.NewCommitmentFilter c li eo) log).store = store := by
    simp only [handle_event]
    rw [if_neg hne, hroot]
  refine ⟨h1, h2, h3, ?_⟩
  rw [h2, h3]
  exact h1

/-- C3 witness: the theorem applied to a concrete odd-index event under the
environment whose contract recognises no root. -/
theorem c3_invalid_root_rejects_and_rolls_back_witness :
    (handle_event envRootUnknown sampleHandler emptyStore sampleWrapper
      (VAnchorContractEvents.NewCommitmentFilter 7 1 0) sampleLog).res =
      some (Error.InvalidMerkleRootError (u32Of 1)) ∧
    (handle_event envRootUnknown sampleHandler emptyStore sampleWrapper
      (VAnchorContractEvents.NewCommitmentFilter 7 1 0) sampleLog).tree =
      sampleHandler.mt.tree ∧
    (handle_event envRootUnknown sampleHandler emptyStore sampleWrapper
      (VAnchorContractEvents.NewCommitmentFilter 7 1 0) sampleLog).store = emptyStore ∧
    (handle_event envRootUnknown
      { sampleHandler with mt := { sampleHandler.mt with tree :=
          (handle_event envRootUnknown sampleHandler emptyStore sampleWrapper
            (VAnchorContractEvents.NewCommitmentFilter 7 1 0) sampleLog).tree } }
      (handle_event envRootUnknown sampleHandler emptyStore sampleWrapper
        (VAnchorContractEvents.NewCommitmentFilter 7 1 0) sampleLog).store sampleWrapper
      (VAnchorContractEvents.NewCommitmentFilter 7 1 0) sampleLog).res =
      some (Error.InvalidMerkleRootError (u32Of 1)) :=
  c3_invalid_root_rejects_and_rolls_back envRootUnknown sampleHandler emptyStore
    sampleWrapper sampleLog 7 1 0 (by decide) rfl

/-- C7 witness: the theorem applied to a concrete EdgeAddition event. -/
theorem c7_other_variants_no_state_change_witness :
    handle_event envAllOk sampleHandler emptyStore sampleWrapper
        (VAnchorContractEvents.EdgeAdditionFilter 1 2 3) sampleLog =
      { tree := sampleHandler.mt.tree, store := emptyStore, res := none, queries := [] } :=
  c7_other_variants_no_state_change envAllOk sampleHandler emptyStore sampleWrapper _
    sampleLog (fun _ _ _ h => VAnchorContractEvents.noConfusion h)

/-! ### Sorted-map lemmas for the tree reconstruction claims -/

/-- Every key of mapInsert k v l is k or a key of l. -/
theorem mapInsert_mem_keys (k v a : Nat) :
    ∀ l : List (Nat × Nat), a ∈ (mapInsert k v l).map Prod.fst →
      a = k ∨ a ∈ l.map Prod.fst := by
  intro l
  induction l with
  | nil =>
    intro h
    simp [mapInsert] at h
    exact Or.inl h
  | cons p rest ih =>
    obtain ⟨k1, v1⟩ := p
    intro h
    rw [mapInsert] at h
    split_ifs at h with h1 h2
    · simp only [List.map_cons, List.mem_cons] at h
      rcases h with h | h | h
      · exact Or.inl h
      · exact Or.inr (by simp [h])
      · exact Or.inr (by simp only [List.map_cons, List.mem_cons]; exact Or.inr h)
    · simp only [List.map_cons, List.mem_cons] at h
      rcases h with h | h
      · exact Or.inl h
      · exact Or.inr (by simp only [List.map_cons, List.mem_cons]; exact Or.inr h)
    · simp only [List.map_cons, List.mem_cons] at h
      rcases h with h | h
      · exact Or.inr (by simp [h])
      · rcases ih h with h3 | h3
        · exact Or.inl h3
        · exact Or.inr (by simp only [List.map_cons, List.mem_cons]; exact Or.inr h3)

/-- mapInsert preserves strictly increasing keys. -/
theorem keysSorted_mapInsert (k v : Nat) :
    ∀ l : List (Nat × Nat), keysSorted l → keysSorted (mapInsert k v l) := by
  intro l
  induction l with
  | nil =>
    intro _
    simp [keysSorted, mapInsert]
  | cons p rest ih =>
    obtain ⟨k1, v1⟩ := p
    intro hs
    rw [keysSorted, List.map_cons, List.pairwise_cons] at hs
    obtain ⟨hk1, hrest⟩ := hs
    rw [mapInsert]
    split_ifs with h1 h2
    · rw [keysSorted, List.map_cons, List.map_cons, List.pairwise_cons]
      refine ⟨?_, ?_⟩
      · intro b hb
        rcases List.mem_cons.mp hb with hb | hb
        · omega
        · have := hk1 b hb
          omega
      · rw [List.pairwise_cons]
        exact ⟨hk1, hrest⟩
    · rw [keysSorted, List.map_cons, List.pairwise_cons]
      refine ⟨?_, hrest⟩
      intro b hb
      have := hk1 b hb
      omega
    · rw [keysSorted, List.map_cons, List.pairwise_cons]
      refine ⟨?_, ih hrest⟩
      intro b hb
      rcases mapInsert_mem_keys k v b rest hb with hb2 | hb2
      · omega
      · exact hk1 b hb2

/-- Inserting a key above every key of a sorted list appends it at the end. -/
theorem mapInsert_append_of_lt (k v : Nat) :
    ∀ l : List (Nat × Nat), (∀ a ∈ l.map Prod.fst, a < k) →
      mapInsert k v l = l ++ [(k, v)] := by
  intro l
  induction l with
  | nil =>
    intro _
    rfl
  | cons p rest ih =>
    obtain ⟨k1, v1⟩ := p
    intro h
    have hk1 : k1 < k := h k1 (by simp)
    rw [mapInsert, if_neg (by omega), if_neg (by omega),
      ih (fun a ha => h a (by simp [ha]))]
    rfl

/-- Folding mapInsert over pairs whose keys extend a sorted prefix appends
them in order. -/
theorem foldl_mapInsert_eq_append :
    ∀ (l acc : List (Nat × Nat)),
      List.Pairwise (fun a b => a < b) ((acc ++ l).map Prod.fst) →
      List.foldl (fun m p => mapInsert p.1 p.2 m) acc l = acc ++ l := by
  intro l
  induction l with
  | nil =>
    intro acc _
    simp
  | cons p rest ih =>
    obtain ⟨k, v⟩ := p
    intro acc h
    have hlt : ∀ a ∈ acc.map Prod.fst, a < k := by
      intro a ha
      have h2 := List.pairwise_append.mp (by simpa using h)
      exact h2.2.2 a ha k (by simp)
    rw [List.foldl_cons]
    show List.foldl _ (mapInsert k v acc) rest = acc ++ (k, v) :: rest
    rw [mapInsert_append_of_lt k v acc hlt]
    have h3 : List.Pairwise (fun a b => a < b)
        (((acc ++ [(k, v)]) ++ rest).map Prod.fst) := by
      simpa using h
    rw [ih (acc ++ [(k, v)]) h3]
    simp

/-- The reducing variant: folding mapInsert of the field-reduced values over
pairs whose keys extend a sorted prefix appends the reduced pairs in order. -/
theorem foldl_mapInsert_reduce_eq_append :
    ∀ (l acc : List (Nat × Nat)),
      List.Pairwise (fun a b => a < b) ((acc ++ l).map Prod.fst) →
      List.foldl (fun m p => mapInsert p.1 (from_be_bytes_mod_order p.2) m) acc l =
        acc ++ reduceLeaves l := by
  intro l
  induction l with
  | nil =>
    intro acc _
    simp [reduceLeaves]
  | cons p rest ih =>
    obtain ⟨k, v⟩ := p
    intro acc h
    have hlt : ∀ a ∈ acc.map Prod.fst, a < k := by
      intro a ha
      have h2 := List.pairwise_append.mp (by simpa using h)
      exact h2.2.2 a ha k (by simp)
    rw [List.foldl_cons]
    show List.foldl _ (mapInsert k (from_be_bytes_mod_order v) acc) rest =
      acc ++ reduceLeaves ((k, v) :: rest)
    rw [mapInsert_append_of_lt k (from_be_bytes_mod_order v) acc hlt]
    have h3 : List.Pairwise (fun a b => a < b)
        (((acc ++ [(k, from_be_bytes_mod_order v)]) ++ rest).map Prod.fst) := by
      simpa using h
    rw [ih (acc ++ [(k, from_be_bytes_mod_order v)]) h3]
    simp [reduceLeaves]

/-- The reducing fold of mapInsert keeps keys sorted from any sorted
accumulator. -/
theorem keysSorted_foldl_mapInsert_reduce :
    ∀ (l acc : List (Nat × Nat)), keysSorted acc →
      keysSorted
        (List.foldl (fun m p => mapInsert p.1 (from_be_bytes_mod_order p.2) m) acc l) := by
  intro l
  induction l with
  | nil =>
    intro acc h
    simpa using h
  | cons p rest ih =>
    intro acc h
    rw [List.foldl_cons]
    exact ih _ (keysSorted_mapInsert _ _ _ h)

/-- Field reduction of the values commutes with mapInsert. -/
theorem reduceLeaves_mapInsert (k v : Nat) :
    ∀ l : List (Nat × Nat),
      reduceLeaves (mapInsert k v l) =
        mapInsert k (from_be_bytes_mod_order v) (reduceLeaves l) := by
  intro l
  induction l with
  | nil => rfl
  | cons p rest ih =>
    obtain ⟨k1, v1⟩ := p
    rw [mapInsert]
    split_ifs with h1 h2
    · simp [reduceLeaves, mapInsert, h1]
    · simp [reduceLeaves, mapInsert, h1, h2]
    · simp only [reduceLeaves, List.map_cons] at ih ⊢
      rw [ih]
      rw [mapInsert, if_neg h1, if_neg h2]

/-- Reducing the values does not change the keys, so sortedness carries
over. -/
theorem keysSorted_reduceLeaves (l : List (Nat × Nat)) (h : keysSorted l) :
    keysSorted (reduceLeaves l) := by
  rw [keysSorted, reduceLeaves] at *
  simpa [List.map_map, Function.comp] using h

/-- The tree map of a freshly built tree is the inserted batch fold. -/
theorem MerkleTree.new_tree (batch : List (Nat × Nat)) (emptyLeaf : Nat) :
    (MerkleTree.new batch emptyLeaf).tree =
      batch.foldl (fun m p => mapInsert p.1 p.2 m) [] := rfl

/-- The empty leaf of a freshly built tree. -/
theorem MerkleTree.new_emptyLeaf (batch : List (Nat × Nat)) (emptyLeaf : Nat) :
    (MerkleTree.new batch emptyLeaf).emptyLeaf = emptyLeaf := rfl

/-- Setting a key makes it readable. -/
theorem alistGet?_alistSet {κ α : Type} [DecidableEq κ] (k : κ) (v : α) :
    ∀ l : List (κ × α), alistGet? k (alistSet k v l) = some v := by
  intro l
  induction l with
  | nil => simp [alistSet, alistGet?]
  | cons p rest ih =>
    obtain ⟨k1, v1⟩ := p
    rw [alistSet]
    split_ifs with h
    · simp [alistGet?]
    · rw [alistGet?, if_neg h]
      exact ih

/-- Reading the leaves of a resource right after writing them. -/
theorem get_leaves_insert (s : SledStore) (rid : ResourceId)
    (vals : List (Nat × Nat)) (blockNumber : Nat) :
    (s.insert_leaves_and_last_deposit_block_number rid vals blockNumber).get_leaves rid =
      vals.foldl (fun m p => mapInsert p.1 p.2 m) (s.get_leaves rid) := by
  rw [SledStore.insert_leaves_and_last_deposit_block_number, SledStore.get_leaves]
  rw [alistGet?_alistSet]
  rfl

/-- When the persistence step succeeds, the store is the store with the leaf
and block number inserted and the event recorded. -/
theorem persistLeafAndEvent_ok_store (env : Env) (tree1 : List (Nat × Nat))
    (store : SledStore) (key : ResourceId) (value : Nat × Nat) (blockNumber : Nat)
    (record : Nat × Nat × Nat) (queries : List (Nat × Nat))
    (hres : (persistLeafAndEvent env tree1 store key value blockNumber record
      queries).res = none) :
    (persistLeafAndEvent env tree1 store key value blockNumber record queries).store =
      (store.insert_leaves_and_last_deposit_block_number key [value]
        blockNumber).store_event record := by
  unfold persistLeafAndEvent at hres ⊢
  split_ifs at hres ⊢
  rfl

/-- What an accepted event does: a non-NewCommitment event changes nothing;
an accepted NewCommitment inserts the reduced leaf into the tree and writes
the leaf, the block number and the event record to the store. -/
theorem handle_event_ok_cases (env : Env) (self : VAnchorLeavesHandler)
    (store : SledStore) (wrapper : VAnchorContractWrapper)
    (event : VAnchorContractEvents) (log : LogMeta)
    (hres : (handle_event env self store wrapper event log).res = none) :
    ((handle_event env self store wrapper event log).tree = self.mt.tree ∧
      (handle_event env self store wrapper event log).store = store) ∨
    (∃ c li eo, event = VAnchorContractEvents.NewCommitmentFilter c li eo ∧
      (handle_event env self store wrapper event log).tree =
        mapInsert (u32Of li) (from_be_bytes_mod_order c) self.mt.tree ∧
      (handle_event env self store wrapper event log).store =
        (store.insert_leaves_and_last_deposit_block_number
          (derivedResourceId wrapper.address self.chainId)
          [(u32Of li, c)] log.blockNumber).store_event (c, li, eo)) := by
  cases event
  case NewCommitmentFilter c li eo =>
    by_cases hp : u32Of li % 2 = 0
    · simp only [handle_event] at hres ⊢
      rw [if_pos hp] at hres ⊢
      exact Or.inr ⟨c, li, eo, rfl, persistLeafAndEvent_tree _ _ _ _ _ _ _ _,
        persistLeafAndEvent_ok_store _ _ _ _ _ _ _ _ hres⟩
    · simp only [handle_event] at hres ⊢
      rw [if_neg hp] at hres ⊢
      rcases hk : env.is_known_root
          (MerkleTree.root self.hasher
            (self.mt.insert_batch (mapInsert (u32Of li) (from_be_bytes_mod_order c) [])))
          log.blockNumber with _ | b
      · rw [hk] at hres
        exact Option.noConfusion hres
      · cases b
        · rw [hk] at hres
          exact Option.noConfusion hres
        · rw [hk] at hres
          exact Or.inr ⟨c, li, eo, rfl, persistLeafAndEvent_tree _ _ _ _ _ _ _ _,
            persistLeafAndEvent_ok_store _ _ _ _ _ _ _ _ hres⟩
  all_goals exact Or.inl ⟨rfl, rfl⟩

/-- Accepted runs keep the in-memory tree equal to the field-reduced stored
leaves of the derived resource, with sorted indices, and do not change the
handler's identity fields. -/
theorem runEvents_preserves_sync (env : Env) (wrapper : VAnchorContractWrapper) :
    ∀ (evs : List (VAnchorContractEvents × LogMeta))
      (self self1 : VAnchorLeavesHandler) (store store1 : SledStore),
      runEvents env wrapper self store evs = some (self1, store1) →
      self.mt.tree =
        reduceLeaves (store.get_leaves (derivedResourceId wrapper.address self.chainId)) →
      keysSorted (store.get_leaves (derivedResourceId wrapper.address self.chainId)) →
      self1.chainId = self.chainId ∧ self1.hasher = self.hasher ∧
      self1.mt.emptyLeaf = self.mt.emptyLeaf ∧
      self1.mt.tree =
        reduceLeaves (store1.get_leaves (derivedResourceId wrapper.address self.chainId)) ∧
      keysSorted (store1.get_leaves (derivedResourceId wrapper.address self.chainId)) := by
  intro evs
  induction evs with
  | nil =>
    intro self self1 store store1 hrun hInv hSort
    rw [runEvents] at hrun
    cases hrun
    exact ⟨rfl, rfl, rfl, hInv, hSort⟩
  | cons p rest ih =>
    obtain ⟨event, log⟩ := p
    intro self self1 store store1 hrun hInv hSort
    simp only [runEvents] at hrun
    rcases hres : (handle_event env self store wrapper event log).res with _ | err
    · rw [hres] at hrun
      rcases handle_event_ok_cases env self store wrapper event log hres with
        ⟨ht, hs⟩ | ⟨c, li, eo, _, ht, hs⟩
      · have := ih { self with mt := { self.mt with tree :=
            (handle_event env self store wrapper event log).tree } }
          self1 (handle_event env self store wrapper event log).store store1 hrun
          (by rw [ht, hs]; exact hInv) (by rw [hs]; exact hSort)
        exact this
      · have hleaves : (handle_event env self store wrapper event log).store.get_leaves
            (derivedResourceId wrapper.address self.chainId) =
            mapInsert (u32Of li) c
              (store.get_leaves (derivedResourceId wrapper.address self.chainId)) := by
          rw [hs]
          exact get_leaves_insert store _ [(u32Of li, c)] log.blockNumber
        have := ih { self with mt := { self.mt with tree :=
            (handle_event env self store wrapper event log).tree } }
          self1 (handle_event env self store wrapper event log).store store1 hrun
          (by
            show (handle_event env self store wrapper event log).tree =
              reduceLeaves ((handle_event env self store wrapper event log).store.get_leaves
                (derivedResourceId wrapper.address self.chainId))
            rw [hleaves, ht, reduceLeaves_mapInsert, hInv])
          (by
            show keysSorted ((handle_event env self store wrapper event log).store.get_leaves
              (derivedResourceId wrapper.address self.chainId))
            rw [hleaves]
            exact keysSorted_mapInsert _ _ _ hSort)
        exact this
    · rw [hres] at hrun
      exact Option.noConfusion hrun

/-- C4: VAnchorLeavesHandler::new succeeds, reads all leaves stored for the
derived ResourceId, reconstructs the Merkle tree from them with each stored
leaf interpreted as a field element, and every stored leaf is so
interpretable (big-endian reduction mod the field order is total, which is
why the decode-failure exit can never be taken for a stored leaf). -/
theorem c4_new_reads_all_leaves_and_reconstructs (hasher : Nat → Nat → Nat)
    (chainId contractAddress : Nat) (storage : SledStore) (emptyLeaf : Nat) :
    ∃ h, VAnchorLeavesHandler.new hasher chainId contractAddress storage emptyLeaf =
        Except.ok h ∧
      h.mt.tree = (storage.get_leaves (derivedResourceId contractAddress chainId)).foldl
        (fun m p => mapInsert p.1 (from_be_bytes_mod_order p.2) m) [] ∧
      h.mt.emptyLeaf = from_be_bytes_mod_order emptyLeaf ∧
      ∀ p ∈ storage.get_leaves (derivedResourceId contractAddress chainId),
        from_be_bytes_mod_order p.2 < bn254FrModulus := by
  refine ⟨_, rfl, ?_, rfl, ?_⟩
  · show (MerkleTree.new _ _).tree = _
    rw [MerkleTree.new, MerkleTree.insert_batch]
    exact foldl_mapInsert_eq_append _ []
      (by
        simpa using keysSorted_foldl_mapInsert_reduce
          (storage.get_leaves (derivedResourceId contractAddress chainId)) []
          (by simp [keysSorted]))
  · intro p _
    exact Nat.mod_lt _ (by decide)

/-- C4 witness: the theorem applied to a store holding two leaves. -/
theorem c4_new_reads_all_leaves_and_reconstructs_witness :
    ∃ h, VAnchorLeavesHandler.new sampleHasher 1 2 sampleStoreAfterRun 0 =
        Except.ok h ∧
      h.mt.tree = (sampleStoreAfterRun.get_leaves (derivedResourceId 2 1)).foldl
        (fun m p => mapInsert p.1 (from_be_bytes_mod_order p.2) m) [] ∧
      h.mt.emptyLeaf = from_be_bytes_mod_order 0 ∧
      ∀ p ∈ sampleStoreAfterRun.get_leaves (derivedResourceId 2 1),
        from_be_bytes_mod_order p.2 < bn254FrModulus :=
  c4_new_reads_all_leaves_and_reconstructs sampleHasher 1 2 sampleStoreAfterRun 0

/-- C5: round-trip on restart.  Start from a handler freshly built over a
well-formed store; after any sequence of events all accepted by
handle_event, building a fresh handler over the resulting store yields a
tree whose root equals the root of the in-memory tree at shutdown. -/
theorem c5_restart_reconstructs_same_root (env : Env) (hasher : Nat → Nat → Nat)
    (chainId contractAddress emptyLeaf : Nat) (s0 : SledStore)
    (h0 h1 : VAnchorLeavesHandler) (s1 : SledStore)
    (wrapper : VAnchorContractWrapper)
    (evs : List (VAnchorContractEvents × LogMeta))
    (hw : wrapper.address = contractAddress)
    (hsorted : keysSorted (s0.get_leaves (derivedResourceId contractAddress chainId)))
    (hnew : VAnchorLeavesHandler.new hasher chainId contractAddress s0 emptyLeaf =
      Except.ok h0)
    (hrun : runEvents env wrapper h0 s0 evs = some (h1, s1)) :
    ∃ h2, VAnchorLeavesHandler.new hasher chainId contractAddress s1 emptyLeaf =
        Except.ok h2 ∧
      MerkleTree.root hasher h2.mt = MerkleTree.root hasher h1.mt := by
  simp only [VAnchorLeavesHandler.new, bytes_vec_to_f, List.map, List.get?] at hnew
  cases hnew
  have h0tree : (MerkleTree.new
      ((s0.get_leaves (derivedResourceId contractAddress chainId)).foldl
        (fun m p => mapInsert p.1 (from_be_bytes_mod_order p.2) m) [])
      (from_be_bytes_mod_order emptyLeaf)).tree =
      reduceLeaves (s0.get_leaves (derivedResourceId contractAddress chainId)) := by
    rw [MerkleTree.new_tree]
    rw [foldl_mapInsert_reduce_eq_append _ [] (by simpa [keysSorted] using hsorted)]
    rw [List.nil_append]
    rw [foldl_mapInsert_eq_append _ []
      (by simpa [keysSorted] using keysSorted_reduceLeaves _ hsorted)]
    rw [List.nil_append]
  obtain ⟨hcid, hhash, hempty, htree, hsort1⟩ :=
    runEvents_preserves_sync env wrapper evs _ h1 s0 s1 hrun
      (by rw [hw]; exact h0tree) (by rw [hw]; exact hsorted)
  have hsort1c : keysSorted (s1.get_leaves (derivedResourceId contractAddress chainId)) := by
    rw [← hw]
    exact hsort1
  have htreec : h1.mt.tree =
      reduceLeaves (s1.get_leaves (derivedResourceId contractAddress chainId)) := by
    rw [← hw]
    exact htree
  refine ⟨_, rfl, ?_⟩
  have h2tree : (MerkleTree.new
      ((s1.get_leaves (derivedResourceId contractAddress chainId)).foldl
        (fun m p => mapInsert p.1 (from_be_bytes_mod_order p.2) m) [])
      (from_be_bytes_mod_order emptyLeaf)).tree = h1.mt.tree := by
    rw [MerkleTree.new_tree]
    rw [foldl_mapInsert_reduce_eq_append _ [] (by simpa [keysSorted] using hsort1c)]
    rw [List.nil_append]
    rw [foldl_mapInsert_eq_append _ []
      (by simpa [keysSorted] using keysSorted_reduceLeaves _ hsort1c)]
    rw [List.nil_append, htreec]
  have h2empty : (MerkleTree.new
      ((s1.get_leaves (derivedResourceId contractAddress chainId)).foldl
        (fun m p => mapInsert p.1 (from_be_bytes_mod_order p.2) m) [])
      (from_be_bytes_mod_order emptyLeaf)).emptyLeaf = h1.mt.emptyLeaf := by
    exact hempty.symm
  show MerkleTree.root hasher (MerkleTree.new
      ((s1.get_leaves (derivedResourceId contractAddress chainId)).foldl
        (fun m p => mapInsert p.1 (from_be_bytes_mod_order p.2) m) [])
      (from_be_bytes_mod_order emptyLeaf)) = MerkleTree.root hasher h1.mt
  rw [MerkleTree.root, MerkleTree.root, h2tree, h2empty]

/-- C5 witness: the theorem applied to the two-commitment run from the empty
store on chain 1, contract 2. -/
theorem c5_restart_reconstructs_same_root_witness :
    ∃ h2, VAnchorLeavesHandler.new sampleHasher 1 2 sampleStoreAfterRun 0 =
        Except.ok h2 ∧
      MerkleTree.root sampleHasher h2.mt =
        MerkleTree.root sampleHasher sampleHandlerAfterRun.mt :=
  c5_restart_reconstructs_same_root envAllOk sampleHasher 1 2 0 emptyStore
    sampleHandler sampleHandlerAfterRun sampleStoreAfterRun sampleWrapper
    [(VAnchorContractEvents.NewCommitmentFilter 5 0 0, { blockNumber := 3 }),
     (VAnchorContractEvents.NewCommitmentFilter 9 1 0, { blockNumber := 4 })]
    rfl (by simp [keysSorted, emptyStore, SledStore.get_leaves, alistGet?]) rfl rfl

/-! ### Supervisor lemmas -/

/-- The tasks a single contract spawns: a Tornado or AnchorOverDKG watcher
for that contract on that chain, and only when its events watcher is
enabled. -/
theorem startContract_mem (env : ServiceEnv) (chainName : Nat) (c : Contract)
    (ts : List Task) (h : startContract env chainName c = some ts) (t : Task)
    (ht : t ∈ ts) :
    (∃ tc, c = Contract.Tornado tc ∧
      t = Task.tornadoWatcher chainName tc.common.address ∧
      tc.common.eventsWatcher.enabled = true) ∨
    (∃ ac, c = Contract.AnchorOverDKG ac ∧
      t = Task.anchorOverDkgWatcher chainName ac.common.address ∧
      ac.common.eventsWatcher.enabled = true) := by
  cases c with
  | Tornado tc =>
    rw [startContract, start_tornado_events_watcher] at h
    split_ifs at h with he <;> cases h <;>
      first
        | exact Or.inl ⟨tc, rfl, List.mem_singleton.mp ht, he⟩
        | simp at ht
  | AnchorOverDKG ac =>
    rw [startContract, start_anchor_over_dkg_events_watcher] at h
    split_ifs at h with he hp hw <;> cases h <;>
      first
        | exact Or.inr ⟨ac, rfl, List.mem_singleton.mp ht, he⟩
        | simp at ht
  | GovernanceBravoDelegate gc =>
    rw [startContract] at h
    cases h
    simp at ht

/-- Every task of the contracts loop comes from one of the contracts. -/
theorem startContracts_mem (env : ServiceEnv) (chainName : Nat) :
    ∀ (cs : List Contract) (t : Task), t ∈ (startContracts env chainName cs).1 →
      ∃ c ∈ cs, ∃ ts, startContract env chainName c = some ts ∧ t ∈ ts := by
  intro cs
  induction cs with
  | nil =>
    intro t ht
    simp [startContracts] at ht
  | cons c rest ih =>
    intro t ht
    rw [startContracts] at ht
    rcases hc : startContract env chainName c with _ | ts
    · rw [hc] at ht
      simp at ht
    · rw [hc] at ht
      rcases List.mem_append.mp ht with h | h
      · exact ⟨c, List.mem_cons_self c rest, ts, hc, h⟩
      · obtain ⟨c2, hc2, ts2, hts2, ht2⟩ := ih t h
        exact ⟨c2, List.mem_cons_of_mem _ hc2, ts2, hts2, ht2⟩

/-- Every task of one chain iteration: the chain is enabled, and the task is
the chain's transaction queue or comes from one of its contracts. -/
theorem startEvmChain_mem (env : ServiceEnv) (name : Nat) (config : EvmChainConfig)
    (t : Task) (ht : t ∈ (startEvmChain env name config).1) :
    config.enabled = true ∧
    (t = Task.txQueue name ∨
      ∃ c ∈ config.contracts, ∃ ts, startContract env name c = some ts ∧ t ∈ ts) := by
  simp only [startEvmChain] at ht
  by_cases he : config.enabled = true
  · rw [if_pos he] at ht
    by_cases hp : env.evmProviderOk name = true
    · rw [if_pos hp] at ht
      by_cases hok : (startContracts env name config.contracts).2 = true
      · rw [if_pos hok] at ht
        rcases List.mem_append.mp ht with h | h
        · exact ⟨he, Or.inr (startContracts_mem env name config.contracts t h)⟩
        · exact ⟨he, Or.inl (List.mem_singleton.mp h)⟩
      · rw [if_neg hok] at ht
        exact ⟨he, Or.inr (startContracts_mem env name config.contracts t ht)⟩
    · rw [if_neg hp] at ht
      simp at ht
  · rw [if_neg he] at ht
    simp at ht

/-- Every task of one chain iteration belongs to that chain. -/
theorem startEvmChain_chain (env : ServiceEnv) (name : Nat) (config : EvmChainConfig)
    (t : Task) (ht : t ∈ (startEvmChain env name config).1) :
    evmTaskChain t = some name := by
  obtain ⟨_, h⟩ := startEvmChain_mem env name config t ht
  rcases h with h | ⟨c, _, ts, hts, htin⟩
  · rw [h]
    rfl
  · rcases startContract_mem env name c ts hts t htin with
      ⟨tc, _, hteq, _⟩ | ⟨ac, _, hteq, _⟩
    · rw [hteq]
      rfl
    · rw [hteq]
      rfl

/-- Every task of the evm loop comes from one of the configured chains. -/
theorem igniteEvm_mem (env : ServiceEnv) :
    ∀ (l : List (Nat × EvmChainConfig)) (t : Task), t ∈ (igniteEvm env l).1 →
      ∃ p ∈ l, t ∈ (startEvmChain env p.1 p.2).1 := by
  intro l
  induction l with
  | nil =>
    intro t ht
    simp [igniteEvm] at ht
  | cons p rest ih =>
    obtain ⟨name, config⟩ := p
    intro t ht
    simp only [igniteEvm] at ht
    by_cases hok : (startEvmChain env name config).2 = true
    · rw [if_pos hok] at ht
      rcases List.mem_append.mp ht with h | h
      · exact ⟨(name, config), List.mem_cons_self _ _, h⟩
      · obtain ⟨p2, hp2, ht2⟩ := ih t h
        exact ⟨p2, List.mem_cons_of_mem _ hp2, ht2⟩
    · rw [if_neg hok] at ht
      exact ⟨(name, config), List.mem_cons_self _ _, ht⟩

/-- When the evm loop succeeds, every chain iteration succeeded and its
tasks are among the loop's tasks. -/
theorem igniteEvm_ok (env : ServiceEnv) :
    ∀ (l : List (Nat × EvmChainConfig)), (igniteEvm env l).2 = true →
      ∀ p ∈ l, (startEvmChain env p.1 p.2).2 = true ∧
        ∀ t ∈ (startEvmChain env p.1 p.2).1, t ∈ (igniteEvm env l).1 := by
  intro l
  induction l with
  | nil =>
    intro _ p hp
    simp at hp
  | cons q rest ih =>
    obtain ⟨name, config⟩ := q
    intro hok p hp
    simp only [igniteEvm] at hok ⊢
    by_cases h1 : (startEvmChain env name config).2 = true
    · rw [if_pos h1] at hok ⊢
      rcases List.mem_cons.mp hp with hp2 | hp2
      · subst hp2
        refine ⟨h1, ?_⟩
        intro t ht
        exact List.mem_append.mpr (Or.inl ht)
      · obtain ⟨h2, h3⟩ := ih hok p hp2
        refine ⟨h2, ?_⟩
        intro t ht
        exact List.mem_append.mpr (Or.inr (h3 t ht))
    · rw [if_neg h1] at hok
      exact Bool.noConfusion hok

/-- Every task of the pallets fold is the node's DKG proposal handler
watcher. -/
theorem mem_pallet_fold (name : Nat) :
    ∀ (ps : List Pallet) (t : Task),
      t ∈ ps.foldr (fun p acc => startPallet name p ++ acc) [] →
      t = Task.dkgProposalHandlerWatcher name := by
  intro ps
  induction ps with
  | nil =>
    intro t ht
    simp at ht
  | cons p rest ih =>
    intro t ht
    rw [List.foldr_cons] at ht
    rcases List.mem_append.mp ht with h | h
    · cases p with
      | DKGProposalHandler config =>
        rw [startPallet] at h
        split_ifs at h
        · exact List.mem_singleton.mp h
        · simp at h
      | DKGProposals =>
        simp [startPallet] at h
    · exact ih t h

/-- Every task of one substrate node iteration is a DKG proposal handler
watcher for that node. -/
theorem startSubstrateNode_shape (env : ServiceEnv) (name : Nat)
    (config : SubstrateNodeConfig) (t : Task)
    (ht : t ∈ (startSubstrateNode env name config).1) :
    t = Task.dkgProposalHandlerWatcher name := by
  rw [startSubstrateNode] at ht
  by_cases he : config.enabled = true
  · rw [if_pos he] at ht
    rcases hr : config.runtime with _ | _
    · rw [hr] at ht
      by_cases hp : env.substrateProviderOk name = true
      · rw [if_pos hp] at ht
        by_cases hc : env.chainIdentifierOk name = true
        · rw [if_pos hc] at ht
          exact mem_pallet_fold name config.pallets t ht
        · rw [if_neg hc] at ht
          simp at ht
      · rw [if_neg hp] at ht
        simp at ht
    · rw [hr] at ht
      simp at ht
  · rw [if_neg he] at ht
    simp at ht

/-- Every task of the substrate loop is a DKG proposal handler watcher. -/
theorem igniteSubstrate_shape (env : ServiceEnv) :
    ∀ (l : List (Nat × SubstrateNodeConfig)) (t : Task),
      t ∈ (igniteSubstrate env l).1 → ∃ n, t = Task.dkgProposalHandlerWatcher n := by
  intro l
  induction l with
  | nil =>
    intro t ht
    simp [igniteSubstrate] at ht
  | cons q rest ih =>
    obtain ⟨name, config⟩ := q
    intro t ht
    simp only [igniteSubstrate] at ht
    by_cases h1 : (startSubstrateNode env name config).2 = true
    · rw [if_pos h1] at ht
      rcases List.mem_append.mp ht with h | h
      · exact ⟨name, startSubstrateNode_shape env name config t h⟩
      · exact ih t h
    · rw [if_neg h1] at ht
      exact ⟨name, startSubstrateNode_shape env name config t ht⟩

/-- C9: when ignite returns Ok, every spawned task tagged with an EVM chain
belongs to an enabled chain of the configuration; every Tornado or
AnchorOverDKG watcher task corresponds to a contract of an enabled chain
whose events watcher is enabled (so no watcher is started for a
watcher-disabled contract); no task is ever started for a
GovernanceBravoDelegate contract; and a transaction queue is started for
every enabled EVM chain. -/
theorem c9_ignite_spawn_policy (env : ServiceEnv) (config : RelayerConfig)
    (hok : (ignite env config).2 = true) :
    (∀ t ∈ (ignite env config).1, ∀ name, evmTaskChain t = some name →
      ∃ c, (name, c) ∈ config.evm ∧ c.enabled = true) ∧
    (∀ t ∈ (ignite env config).1, ∀ name addr, t = Task.tornadoWatcher name addr →
      ∃ c tc, (name, c) ∈ config.evm ∧ c.enabled = true ∧
        Contract.Tornado tc ∈ c.contracts ∧ tc.common.address = addr ∧
        tc.common.eventsWatcher.enabled = true) ∧
    (∀ t ∈ (ignite env config).1, ∀ name addr,
      t = Task.anchorOverDkgWatcher name addr →
      ∃ c ac, (name, c) ∈ config.evm ∧ c.enabled = true ∧
        Contract.AnchorOverDKG ac ∈ c.contracts ∧ ac.common.address = addr ∧
        ac.common.eventsWatcher.enabled = true) ∧
    (∀ t ∈ (ignite env config).1, ∀ name addr,
      t ≠ Task.governanceBravoWatcher name addr) ∧
    (∀ name c, (name, c) ∈ config.evm → c.enabled = true →
      Task.txQueue name ∈ (ignite env config).1) := by
  have hevmok : (igniteEvm env config.evm).2 = true := by
    by_cases h : (igniteEvm env config.evm).2 = true
    · exact h
    · simp only [ignite] at hok
      rw [if_neg h] at hok
      exact Bool.noConfusion hok
  have htasks : (ignite env config).1 =
      (igniteEvm env config.evm).1 ++ (igniteSubstrate env config.substrate).1 := by
    simp only [ignite]
    rw [if_pos hevmok]
  have hmem : ∀ t ∈ (ignite env config).1,
      t ∈ (igniteEvm env config.evm).1 ∨ ∃ n, t = Task.dkgProposalHandlerWatcher n := by
    intro t ht
    rw [htasks] at ht
    rcases List.mem_append.mp ht with h | h
    · exact Or.inl h
    · exact Or.inr (igniteSubstrate_shape env config.substrate t h)
  refine ⟨?_, ?_, ?_, ?_, ?_⟩
  · intro t ht name hchain
    rcases hmem t ht with h | ⟨n, hn⟩
    · obtain ⟨p, hp, ht2⟩ := igniteEvm_mem env config.evm t h
      obtain ⟨pname, pcfg⟩ := p
      have hen := (startEvmChain_mem env pname pcfg t ht2).1
      have hnm := startEvmChain_chain env pname pcfg t ht2
      rw [hnm] at hchain
      injection hchain with hchain
      subst hchain
      exact ⟨pcfg, hp, hen⟩
    · subst hn
      simp [evmTaskChain] at hchain
  · intro t ht name addr hteq
    subst hteq
    rcases hmem _ ht with h | ⟨n, hn⟩
    · obtain ⟨p, hp, ht2⟩ := igniteEvm_mem env config.evm _ h
      obtain ⟨pname, pcfg⟩ := p
      obtain ⟨hen, hsub⟩ := startEvmChain_mem env pname pcfg _ ht2
      rcases hsub with h2 | ⟨c, hcmem, ts, hts, htin⟩
      · cases h2
      · rcases startContract_mem env pname c ts hts _ htin with
          ⟨tc, hceq, hteq2, henab⟩ | ⟨ac, hceq, hteq2, henab⟩
        · injection hteq2 with e1 e2
          subst e1
          subst e2
          exact ⟨pcfg, tc, hp, hen, hceq ▸ hcmem, rfl, henab⟩
        · cases hteq2
    · cases hn
  · intro t ht name addr hteq
    subst hteq
    rcases hmem _ ht with h | ⟨n, hn⟩
    · obtain ⟨p, hp, ht2⟩ := igniteEvm_mem env config.evm _ h
      obtain ⟨pname, pcfg⟩ := p
      obtain ⟨hen, hsub⟩ := startEvmChain_mem env pname pcfg _ ht2
      rcases hsub with h2 | ⟨c, hcmem, ts, hts, htin⟩
      · cases h2
      · rcases startContract_mem env pname c ts hts _ htin with
          ⟨tc, hceq, hteq2, henab⟩ | ⟨ac, hceq, hteq2, henab⟩
        · cases hteq2
        · injection hteq2 with e1 e2
          subst e1
          subst e2
          exact ⟨pcfg, ac, hp, hen, hceq ▸ hcmem, rfl, henab⟩
    · cases hn
  · intro t ht name addr hteq
    subst hteq
    rcases hmem _ ht with h | ⟨n, hn⟩
    · obtain ⟨p, hp, ht2⟩ := igniteEvm_mem env config.evm _ h
      obtain ⟨pname, pcfg⟩ := p
      obtain ⟨_, hsub⟩ := startEvmChain_mem env pname pcfg _ ht2
      rcases hsub with h2 | ⟨c, hcmem, ts, hts, htin⟩
      · cases h2
      · rcases startContract_mem env pname c ts hts _ htin with
          ⟨tc, _, hteq2, _⟩ | ⟨ac, _, hteq2, _⟩
        · cases hteq2
        · cases hteq2
    · cases hn
  · intro name c hc hen
    obtain ⟨hchainok, hsub⟩ := igniteEvm_ok env config.evm hevmok (name, c) hc
    have h2 := hchainok
    simp only [startEvmChain] at h2
    rw [if_pos hen] at h2
    by_cases hp : env.evmProviderOk name = true
    · rw [if_pos hp] at h2
      by_cases hc2 : (startContracts env name c.contracts).2 = true
      · have hmem2 : Task.txQueue name ∈ (startEvmChain env name c).1 := by
          simp only [startEvmChain]
          rw [if_pos hen, if_pos hp, if_pos hc2]
          exact List.mem_append.mpr (Or.inr (List.mem_singleton.mpr rfl))
        have h3 := hsub _ hmem2
        rw [htasks]
        exact List.mem_append.mpr (Or.inl h3)
      · rw [if_neg hc2] at h2
        exact Bool.noConfusion h2
    · rw [if_neg hp] at h2
      exact Bool.noConfusion h2

/-- C9 witness: the theorem applied to the sample configuration with one
enabled and one disabled chain. -/
theorem c9_ignite_spawn_policy_witness :
    (∀ t ∈ (ignite sampleServiceEnv sampleRelayerConfig).1, ∀ name,
      evmTaskChain t = some name →
      ∃ c, (name, c) ∈ sampleRelayerConfig.evm ∧ c.enabled = true) ∧
    (∀ t ∈ (ignite sampleServiceEnv sampleRelayerConfig).1, ∀ name addr,
      t = Task.tornadoWatcher name addr →
      ∃ c tc, (name, c) ∈ sampleRelayerConfig.evm ∧ c.enabled = true ∧
        Contract.Tornado tc ∈ c.contracts ∧ tc.common.address = addr ∧
        tc.common.eventsWatcher.enabled = true) ∧
    (∀ t ∈ (ignite sampleServiceEnv sampleRelayerConfig).1, ∀ name addr,
      t = Task.anchorOverDkgWatcher name addr →
      ∃ c ac, (name, c) ∈ sampleRelayerConfig.evm ∧ c.enabled = true ∧
        Contract.AnchorOverDKG ac ∈ c.contracts ∧ ac.common.address = addr ∧
        ac.common.eventsWatcher.enabled = true) ∧
    (∀ t ∈ (ignite sampleServiceEnv sampleRelayerConfig).1, ∀ name addr,
      t ≠ Task.governanceBravoWatcher name addr) ∧
    (∀ name c, (name, c) ∈ sampleRelayerConfig.evm → c.enabled = true →
      Task.txQueue name ∈ (ignite sampleServiceEnv sampleRelayerConfig).1) :=
  c9_ignite_spawn_policy sampleServiceEnv sampleRelayerConfig rfl

end Relayer
